import Mathlib

/-!
A shallow embedding of `src/site/theme/js/header.js` (the whole repository:
mobile-nav open/close, submenu accordion toggling, sticky header) together
with theorems settling the specification claims.

DOM state is modelled explicitly:
* the mobile-nav subsystem as a record of the body marker class and the
  open trigger's `aria-expanded` attribute;
* the sticky subsystem as a record of the header's inline height style and
  the two sticky marker classes;
* the menu as a rose tree of menu items (each item may carry a direct
  toggle control with an `aria-expanded` attribute, a direct parent link
  with an href, an `mnav__menu__item--expanded` marker class, and a nested
  submenu of child items, in that document order).
-/

namespace Header

/-! ## Mobile navigation (`openMobileNav` / `closeMobileNav` and their triggers) -/

/-- The DOM state touched by the mobile-nav subsystem: whether
`document.body` carries the `mnav-active` class, and the value of the
`aria-expanded` attribute on the `.mnav__open` trigger (`none` = attribute
absent; only meaningful when the trigger element exists). -/
structure MNavState where
  mnavActive : Bool
  openAria : Option Bool
deriving DecidableEq, Repr

/-- `openMobileNav()`: adds `mnav-active` to the body; if the `.mnav__open`
element exists (`hasOpen`), sets its `aria-expanded` to `"true"`. -/
def openMobileNav (hasOpen : Bool) (s : MNavState) : MNavState :=
  { mnavActive := true
    openAria := if hasOpen then some true else s.openAria }

/-- `closeMobileNav()`: removes `mnav-active` from the body; if the
`.mnav__open` element exists, sets its `aria-expanded` to `"false"`. -/
def closeMobileNav (hasOpen : Bool) (s : MNavState) : MNavState :=
  { mnavActive := false
    openAria := if hasOpen then some false else s.openAria }

/-- The user events that reach the mobile-nav subsystem. -/
inductive MEvent : Type where
  | openClick
  | closeClick
  | overlayClick
  | escapeKey
deriving DecidableEq, Repr

/-- One event dispatch: the `.mnav__open` click handler calls
`openMobileNav`, the `.mnav__close` and `.mnav__overlay` handlers call
`closeMobileNav`, and the document `keydown` handler calls `closeMobileNav`
only when `e.key === 'Escape'` and the body carries `mnav-active`. -/
def mnavStep (hasOpen : Bool) (s : MNavState) : MEvent → MNavState
  | .openClick => openMobileNav hasOpen s
  | .closeClick => closeMobileNav hasOpen s
  | .overlayClick => closeMobileNav hasOpen s
  | .escapeKey => if s.mnavActive then closeMobileNav hasOpen s else s

/-- Run a finite sequence of mobile-nav events from a starting state. -/
def runMNav (hasOpen : Bool) (s : MNavState) (es : List MEvent) : MNavState :=
  es.foldl (mnavStep hasOpen) s

/-- Position `j` of the event sequence is a "close action" in the sense of
the specification: a close-trigger click, an overlay click, or an Escape
key press delivered while the `mnav-active` flag was set. -/
def IsCloseAt (hasOpen : Bool) (s : MNavState) (es : List MEvent) (j : Nat) : Prop :=
  es[j]? = some .closeClick ∨ es[j]? = some .overlayClick ∨
    (es[j]? = some .escapeKey ∧ (runMNav hasOpen s (es.take j)).mnavActive = true)

/-! ## Sticky header (`handleStickyHeader`) -/

/-- The DOM state touched by `handleStickyHeader`: the inline
`style.height` of the `.header--sticky` element (`none` = the empty string
`''`, `some h` = `h + 'px'`) and the presence of the
`header--sticky-active` / `header--sticky-inactive` marker classes. -/
structure StickyState where
  inlineHeight : Option ℚ
  active : Bool
  inactive : Bool
deriving DecidableEq, Repr

/-- `handleStickyHeader()` with cached height `h`
(`headerStickyProp.height`, measured once at initialization) and current
scroll offset `off` (`window.pageYOffset`). -/
def handleStickyHeader (h off : ℚ) (s : StickyState) : StickyState :=
  if off > h then
    { inlineHeight := some h, active := true, inactive := false }
  else
    { inlineHeight := none
      active := false
      inactive := s.inactive || s.active }

/-- Run `handleStickyHeader` over a sequence of observed scroll offsets. -/
def runSticky (h : ℚ) (s : StickyState) (offs : List ℚ) : StickyState :=
  offs.foldl (fun st off => handleStickyHeader h off st) s

/-! ## Initialization (the IIFE body) -/

/-- Which optional elements the surrounding markup provides. Element
lookups at initialization: `.mnav__open`, `.mnav__close`, `.mnav__overlay`,
the NodeList of `.mnav__menu__toggle` controls, the NodeList of
`.mnav__menu__item--parent > .mnav__menu__link` links whose href is the
`javascript:;` placeholder, `.header__sticky-element` (the sticky marker),
and `.header--sticky` (the element the sticky feature mutates). -/
structure Env where
  mnavOpenPresent : Bool
  mnavClosePresent : Bool
  mnavOverlayPresent : Bool
  toggleCount : Nat
  placeholderParentLinkCount : Nat
  stickyMarkerPresent : Bool
  headerStickyPresent : Bool
  headerStickyHeight : ℚ
deriving DecidableEq, Repr

/-- Which listeners initialization registered, and the cached header
height if the sticky subsystem was set up. -/
structure InitState where
  openBound : Bool
  closeBound : Bool
  overlayBound : Bool
  togglesBound : Nat
  parentLinksBound : Nat
  escapeBound : Bool
  stickyBound : Bool
  cachedHeight : Option ℚ
deriving DecidableEq, Repr

/-- The IIFE body. Every lookup except one is guarded by an existence
check, so registration of each listener depends only on its own element's
presence; the `keydown` (Escape) listener is registered on `document`
unconditionally. The one unguarded access: when `.header__sticky-element`
exists, the code calls `getBoundingClientRect()` on
`document.querySelector('.header--sticky')` without a null check — if that
element is absent this throws a TypeError (second component `true`).
Listeners registered before that point (everything but the sticky
window listeners) are already installed when the throw happens. -/
def initHeader (env : Env) : InitState × Bool :=
  let base : InitState :=
    { openBound := env.mnavOpenPresent
      closeBound := env.mnavClosePresent
      overlayBound := env.mnavOverlayPresent
      togglesBound := env.toggleCount
      parentLinksBound := env.placeholderParentLinkCount
      escapeBound := true
      stickyBound := false
      cachedHeight := none }
  if env.stickyMarkerPresent then
    if env.headerStickyPresent then
      ({ base with stickyBound := true, cachedHeight := some env.headerStickyHeight }, false)
    else
      (base, true)
  else
    (base, false)

/-! ## Theorems: sticky header and initialization -/

/-- C4: a single `handleStickyHeader` invocation. If the scroll offset is
strictly greater than the cached height, afterwards the inline height is
the cached height, `header--sticky-active` is present and
`header--sticky-inactive` is absent; if the offset is at or below the
cached height, afterwards `header--sticky-active` is absent, the inline
height is cleared, and if `header--sticky-active` was present before the
call then `header--sticky-inactive` has been added. -/
theorem handleStickyHeader_spec (h off : ℚ) (s : StickyState) :
    (off > h → handleStickyHeader h off s =
      { inlineHeight := some h, active := true, inactive := false }) ∧
    (off ≤ h → (handleStickyHeader h off s).active = false ∧
      (handleStickyHeader h off s).inlineHeight = none ∧
      (s.active = true → (handleStickyHeader h off s).inactive = true)) := by
  constructor
  · intro hgt
    simp [handleStickyHeader, hgt]
  · intro hle
    have hngt : ¬ off > h := not_lt.mpr hle
    refine ⟨by simp [handleStickyHeader, hngt], by simp [handleStickyHeader, hngt], ?_⟩
    intro ha
    simp [handleStickyHeader, hngt, ha]

/-- Witness for `handleStickyHeader_spec` at the spec's scenarios: cached
height 80, offset 81 (sticky engages) and offset 0 from an active state
(inactive transition class added, height cleared). -/
theorem handleStickyHeader_spec_witness :
    handleStickyHeader 80 81 ⟨none, false, false⟩ = ⟨some 80, true, false⟩ ∧
    ((handleStickyHeader 80 0 ⟨some 80, true, false⟩).active = false ∧
      (handleStickyHeader 80 0 ⟨some 80, true, false⟩).inlineHeight = none ∧
      ((⟨some 80, true, false⟩ : StickyState).active = true →
        (handleStickyHeader 80 0 ⟨some 80, true, false⟩).inactive = true)) :=
  ⟨(handleStickyHeader_spec 80 81 ⟨none, false, false⟩).1 (by decide),
   (handleStickyHeader_spec 80 0 ⟨some 80, true, false⟩).2 (by decide)⟩

/-- C10: once `header--sticky-inactive` is present it persists across any
sequence of `handleStickyHeader` invocations whose offsets stay at or
below the cached height, and a single invocation removes it exactly when
its offset exceeds the cached height. -/
theorem sticky_inactive_persists (h : ℚ) (s : StickyState) :
    (∀ offs : List ℚ, (∀ o ∈ offs, o ≤ h) → s.inactive = true →
      (runSticky h s offs).inactive = true) ∧
    (∀ off : ℚ, s.inactive = true →
      ((handleStickyHeader h off s).inactive = false ↔ off > h)) := by
  constructor
  · intro offs
    induction offs generalizing s with
    | nil => intro _ hs; simpa [runSticky] using hs
    | cons o rest ih =>
      intro hall hs
      have ho : o ≤ h := hall o (by simp)
      have hstep : (handleStickyHeader h o s).inactive = true := by
        simp [handleStickyHeader, not_lt.mpr ho, hs]
      have : runSticky h s (o :: rest) = runSticky h (handleStickyHeader h o s) rest := by
        simp [runSticky, List.foldl_cons]
      rw [this]
      exact ih (handleStickyHeader h o s)
        (fun x hx => hall x (List.mem_cons_of_mem _ hx)) hstep
  · intro off hs
    by_cases hgt : off > h
    · simp [handleStickyHeader, hgt]
    · simp [handleStickyHeader, hgt, hs]

/-- Witness for `sticky_inactive_persists`: inactive survives the offset
sequence `[0, 40, 80]` below the cached height 80, and is removed by a
call at offset 81. -/
theorem sticky_inactive_persists_witness :
    (runSticky 80 ⟨none, false, true⟩ [0, 40, 80]).inactive = true ∧
    ((handleStickyHeader 80 81 ⟨none, false, true⟩).inactive = false ↔ (81 : ℚ) > 80) :=
  ⟨(sticky_inactive_persists 80 ⟨none, false, true⟩).1 [0, 40, 80] (by decide) rfl,
   (sticky_inactive_persists 80 ⟨none, false, true⟩).2 81 rfl⟩

/-- C5: initialization throws exactly when the sticky marker element is
present but the `.header--sticky` element is absent; every other feature's
registration depends only on its own element's presence (so absence of one
optional element never prevents the others), and the Escape listener is
always registered. -/
theorem initHeader_safety (env : Env) :
    ((initHeader env).2 = true ↔
      env.stickyMarkerPresent = true ∧ env.headerStickyPresent = false) ∧
    (initHeader env).1.openBound = env.mnavOpenPresent ∧
    (initHeader env).1.closeBound = env.mnavClosePresent ∧
    (initHeader env).1.overlayBound = env.mnavOverlayPresent ∧
    (initHeader env).1.togglesBound = env.toggleCount ∧
    (initHeader env).1.parentLinksBound = env.placeholderParentLinkCount ∧
    (initHeader env).1.escapeBound = true ∧
    ((initHeader env).2 = false →
      (initHeader env).1.stickyBound = env.stickyMarkerPresent) := by
  rcases env with ⟨o, c, ov, tc, pc, sm, hs, hh⟩
  cases sm <;> cases hs <;> simp [initHeader]

/-- Witness for `initHeader_safety`: a page with only the sticky pair
present initializes without throwing and with the sticky feature bound. -/
theorem initHeader_safety_witness :
    ((initHeader ⟨false, false, false, 0, 0, true, true, 80⟩).2 = true ↔
      (true = true ∧ true = false)) ∧
    (initHeader ⟨false, false, false, 0, 0, true, true, 80⟩).1.escapeBound = true ∧
    (initHeader ⟨false, false, false, 0, 0, true, true, 80⟩).1.stickyBound = true :=
  ⟨(initHeader_safety ⟨false, false, false, 0, 0, true, true, 80⟩).1,
   (initHeader_safety ⟨false, false, false, 0, 0, true, true, 80⟩).2.2.2.2.2.2.1,
   (initHeader_safety ⟨false, false, false, 0, 0, true, true, 80⟩).2.2.2.2.2.2.2 rfl⟩

/-- C9: the Escape listener is registered whatever elements the page
provides, and an Escape key press while the `mnav-active` class is absent
leaves the mobile-nav state (body class and trigger attribute) unchanged.
The menu tree and sticky state are separate state components the keydown
handler never touches. -/
theorem escape_registered_and_noop :
    (∀ env : Env, (initHeader env).1.escapeBound = true) ∧
    (∀ (hasOpen : Bool) (s : MNavState), s.mnavActive = false →
      mnavStep hasOpen s .escapeKey = s) := by
  constructor
  · intro env
    rcases env with ⟨o, c, ov, tc, pc, sm, hs, hh⟩
    cases sm <;> cases hs <;> simp [initHeader]
  · intro hasOpen s hs
    simp [mnavStep, hs]

/-- Witness for `escape_registered_and_noop` on a page with no mobile-nav
elements at all and the nav closed. -/
theorem escape_registered_and_noop_witness :
    (initHeader ⟨false, false, false, 0, 0, false, false, 0⟩).1.escapeBound = true ∧
    mnavStep false ⟨false, none⟩ .escapeKey = ⟨false, none⟩ :=
  ⟨escape_registered_and_noop.1 ⟨false, false, false, 0, 0, false, false, 0⟩,
   escape_registered_and_noop.2 false ⟨false, none⟩ rfl⟩

/-! ## Theorems: mobile-nav open/close sequences -/

theorem lt_length_of_getElem?_some {α : Type _} {l : List α} {j : Nat} {a : α}
    (h : l[j]? = some a) : j < l.length := by
  by_contra hc
  rw [List.getElem?_eq_none (by omega)] at h
  exact Option.noConfusion h

theorem mnavStep_active (hasOpen : Bool) (s : MNavState) (e : MEvent) :
    (mnavStep hasOpen s e).mnavActive = decide (e = MEvent.openClick) := by
  cases e
  · simp [mnavStep, openMobileNav]
  · simp [mnavStep, closeMobileNav]
  · simp [mnavStep, closeMobileNav]
  · by_cases h : s.mnavActive <;> simp [mnavStep, closeMobileNav, h]

theorem runMNav_concat (hasOpen : Bool) (s : MNavState) (es : List MEvent) (e : MEvent) :
    runMNav hasOpen s (es ++ [e]) = mnavStep hasOpen (runMNav hasOpen s es) e := by
  simp [runMNav, List.foldl_append]

theorem runMNav_active_getLast (hasOpen : Bool) (s : MNavState) (es : List MEvent)
    (hs : s.mnavActive = false) :
    ((runMNav hasOpen s es).mnavActive = true ↔ es.getLast? = some MEvent.openClick) := by
  induction es using List.reverseRecOn with
  | nil => simp [runMNav, hs]
  | append_singleton l e _ =>
    rw [runMNav_concat, mnavStep_active, List.getLast?_concat]
    cases e <;> simp

theorem isCloseAt_append (hasOpen : Bool) (s : MNavState) (l : List MEvent) (e : MEvent)
    (j : Nat) (hj : j < l.length) :
    IsCloseAt hasOpen s l j ↔ IsCloseAt hasOpen s (l ++ [e]) j := by
  unfold IsCloseAt
  rw [List.take_append_of_le_length hj.le, List.getElem?_append]
  simp [hj]

theorem mnav_backward_aux (hasOpen : Bool) (s : MNavState) (es : List MEvent) :
    (∃ i, es[i]? = some MEvent.openClick ∧ ∀ j, i < j → ¬ IsCloseAt hasOpen s es j) →
      (runMNav hasOpen s es).mnavActive = true := by
  induction es using List.reverseRecOn with
  | nil => rintro ⟨i, hi, _⟩; simp at hi
  | append_singleton l e ih =>
    rintro ⟨i, hi, hnc⟩
    rw [runMNav_concat, mnavStep_active]
    by_cases hilt : i < l.length
    · have hil : l[i]? = some MEvent.openClick := by
        rw [List.getElem?_append] at hi
        simpa [hilt] using hi
      have hncl : ∀ j, i < j → ¬ IsCloseAt hasOpen s l j := by
        intro j hj hcl
        have hjlen : j < l.length := by
          rcases hcl with h1 | h1 | ⟨h1, _⟩ <;> exact lt_length_of_getElem?_some h1
        exact hnc j hj ((isCloseAt_append hasOpen s l e j hjlen).mp hcl)
      have hactl : (runMNav hasOpen s l).mnavActive = true := ih ⟨i, hil, hncl⟩
      have hje : ¬ IsCloseAt hasOpen s (l ++ [e]) l.length := hnc l.length (by omega)
      unfold IsCloseAt at hje
      rw [List.getElem?_concat_length, List.take_left] at hje
      cases e
      · simp
      · exact absurd (Or.inl rfl) hje
      · exact absurd (Or.inr (Or.inl rfl)) hje
      · exact absurd (Or.inr (Or.inr ⟨rfl, hactl⟩)) hje
    · have hlt : i < (l ++ [e]).length := lt_length_of_getElem?_some hi
      have hieq : i = l.length := by
        rw [List.length_append, List.length_singleton] at hlt
        omega
      subst hieq
      rw [List.getElem?_concat_length] at hi
      obtain rfl : e = MEvent.openClick := by injection hi
      simp

/-- C3: for every finite sequence of open-trigger clicks, close-trigger
clicks, overlay clicks and Escape presses starting from a state without
the `mnav-active` body class, the class is present afterwards iff some
position of the sequence is an open-trigger click after which no close
action occurs, where a close action is a close-trigger click, an overlay
click, or an Escape press delivered while the class was set. -/
theorem mnav_flag_characterization (hasOpen : Bool) (s : MNavState)
    (es : List MEvent) (hs : s.mnavActive = false) :
    ((runMNav hasOpen s es).mnavActive = true ↔
      ∃ i, es[i]? = some MEvent.openClick ∧
        ∀ j, i < j → ¬ IsCloseAt hasOpen s es j) := by
  constructor
  · intro h
    have hlast : es.getLast? = some MEvent.openClick :=
      (runMNav_active_getLast hasOpen s es hs).mp h
    have hne : es ≠ [] := by
      intro he
      rw [he] at hlast
      exact Option.noConfusion hlast
    have hlen : 0 < es.length := List.length_pos.mpr hne
    refine ⟨es.length - 1, ?_, ?_⟩
    · rw [← List.getLast?_eq_getElem?]
      exact hlast
    · intro j hj hcl
      have hnone : es[j]? = none := List.getElem?_eq_none (by omega)
      rcases hcl with h1 | h1 | ⟨h1, _⟩ <;> rw [hnone] at h1 <;> exact Option.noConfusion h1
  · exact mnav_backward_aux hasOpen s es

/-- Witness for `mnav_flag_characterization` on the concrete sequence
open, Escape, open: the nav ends open, and position 2 is the open with no
close action after it. -/
theorem mnav_flag_characterization_witness :
    ((runMNav true ⟨false, none⟩
        [MEvent.openClick, MEvent.escapeKey, MEvent.openClick]).mnavActive = true ↔
      ∃ i, [MEvent.openClick, MEvent.escapeKey, MEvent.openClick][i]? =
          some MEvent.openClick ∧
        ∀ j, i < j → ¬ IsCloseAt true ⟨false, none⟩
          [MEvent.openClick, MEvent.escapeKey, MEvent.openClick] j) :=
  mnav_flag_characterization true ⟨false, none⟩
    [MEvent.openClick, MEvent.escapeKey, MEvent.openClick] rfl

/-! ## The menu tree and the submenu toggle handler

A menu item (`.mnav__menu__item`) is modelled with its direct toggle
control (`.mnav__menu__toggle`, carrying an `aria-expanded` attribute),
its direct parent link's href (present on `--parent` items), the
`mnav__menu__item--expanded` marker class, and the nested submenu's child
items. Within one item the document order of these parts is: parent link,
toggle, submenu — the order the template markup uses, which is what
`querySelector`'s first-match semantics observe. -/

inductive Item : Type where
  | mk (hasToggle : Bool) (aria : Option Bool) (href : Option String)
      (expanded : Bool) (children : List Item)

def Item.hasToggle : Item → Bool
  | .mk t _ _ _ _ => t

def Item.aria : Item → Option Bool
  | .mk _ a _ _ _ => a

def Item.href : Item → Option String
  | .mk _ _ h _ _ => h

def Item.expanded : Item → Bool
  | .mk _ _ _ e _ => e

def Item.children : Item → List Item
  | .mk _ _ _ _ cs => cs

def Item.setChildren : Item → List Item → Item
  | .mk t a h e _, cs => .mk t a h e cs

/- Is there any `.mnav__menu__toggle` in this item's subtree (the item's
own toggle or one of a descendant)? -/
mutual
def hasToggleDesc : Item → Bool
  | .mk t _ _ _ cs => t || hasToggleDescList cs
def hasToggleDescList : List Item → Bool
  | [] => false
  | i :: is => hasToggleDesc i || hasToggleDescList is
end

/- `setAttribute('aria-expanded', b)` on the first toggle (in document
order) of the subtree, as found by `querySelector('.mnav__menu__toggle')`;
identity when the subtree has no toggle (the `if (siblingToggle)` guard). -/
mutual
def setFirstAria (b : Bool) : Item → Item
  | .mk t a h e cs =>
    if t then .mk t (some b) h e cs
    else .mk t a h e (setFirstAriaList b cs)
def setFirstAriaList (b : Bool) : List Item → List Item
  | [] => []
  | i :: is =>
    if hasToggleDesc i then setFirstAria b i :: is
    else i :: setFirstAriaList b is
end

/- The collapse-others pass of the toggle click handler, applied to a
subtree: `item.parentElement.querySelectorAll('.mnav__menu__item--expanded')`
matches every expanded item at any depth, and for each one (other than the
clicked item, which is not in the subtrees this is applied to) the handler
removes the expanded class and sets `aria-expanded="false"` on the first
toggle found inside that item. -/
mutual
def collapseExpanded : Item → Item
  | .mk t a h e cs =>
    let cs' := collapseExpandedList cs
    if e then
      if t then .mk t (some false) h false cs'
      else .mk t a h false (setFirstAriaList false cs')
    else .mk t a h e cs'
def collapseExpandedList : List Item → List Item
  | [] => []
  | i :: is => collapseExpanded i :: collapseExpandedList is
end

/-- The clicked item itself: its expanded descendants are also in the
`querySelectorAll` result (they differ from `item`), so they are
collapsed; then `classList.toggle` flips the item's own expanded class and
the clicked toggle's `aria-expanded` is set to the resulting state. -/
def toggleClicked : Item → Item
  | .mk t _ h e cs =>
    .mk t (some (!e)) h (!e) (collapseExpandedList cs)

/-- The whole toggle click handler body acting on the clicked item's
parent container (`item.parentElement`): the item at index `i` was
clicked; every other expanded item anywhere under the container is
collapsed. -/
def clickInContainer : List Item → Nat → List Item
  | [], _ => []
  | x :: xs, 0 => toggleClicked x :: collapseExpandedList xs
  | x :: xs, n + 1 => collapseExpanded x :: clickInContainer xs n

/-- The item a path of child indices designates in the menu forest. -/
def itemAt : List Item → List Nat → Option Item
  | _, [] => none
  | l, [i] => l[i]?
  | l, j :: k :: p =>
    match l[j]? with
    | some it => itemAt it.children (k :: p)
    | none => none

/-- The container (sibling list) holding the item a path designates. -/
def containerAt : List Item → List Nat → Option (List Item)
  | _, [] => none
  | l, [_] => some l
  | l, j :: k :: p =>
    match l[j]? with
    | some it => containerAt it.children (k :: p)
    | none => none

def updateNth (f : Item → Item) : List Item → Nat → List Item
  | [], _ => []
  | x :: xs, 0 => f x :: xs
  | x :: xs, n + 1 => x :: updateNth f xs n

/-- A click on the toggle of the item at the given path. Clicks exist only
on toggles (`toggle.closest('.mnav__menu__item')` is the item the toggle
belongs to), so a path to a missing item or to an item without a direct
toggle denotes no event and leaves the forest unchanged. -/
def clickAt : List Item → List Nat → List Item
  | l, [] => l
  | l, [i] =>
    match l[i]? with
    | some it => if it.hasToggle then clickInContainer l i else l
    | none => l
  | l, j :: k :: p =>
    updateNth (fun it => it.setChildren (clickAt it.children (k :: p))) l j

/- Path (relative to the item, `some []` = the item itself) of the item
owning the first toggle in the subtree, in document order: the item's own
toggle precedes any toggle inside its submenu. This is the item whose
state `toggle.click()` changes when the parent-link handler fires, since
the dispatched click's `closest('.mnav__menu__item')` is the owner. -/
mutual
def firstOwner : Item → Option (List Nat)
  | .mk t _ _ _ cs => if t then some [] else firstOwnerList cs
def firstOwnerList : List Item → Option (List Nat)
  | [] => none
  | i :: is =>
    match firstOwner i with
    | some q => some (0 :: q)
    | none =>
      match firstOwnerList is with
      | some (k :: q) => some ((k + 1) :: q)
      | some [] => none
      | none => none
end

/-- The parent-link click handler: registered at initialization only for
links whose `href` attribute is the `javascript:;` placeholder; it looks
up `item.querySelector('.mnav__menu__toggle')` — the first toggle in the
item's subtree — and calls `.click()` on it, which runs the toggle handler
for that toggle's own item; nothing happens when the item has no toggle
anywhere in its subtree. -/
def clickParentLink (f : List Item) (p : List Nat) : List Item :=
  match itemAt f p with
  | some it =>
    if it.href = some "javascript:;" then
      match firstOwner it with
      | some [] => clickAt f p
      | some q => clickAt f (p ++ q)
      | none => f
    else f
  | none => f

/-- Number of items carrying the expanded class at the top level of a
sibling list. -/
def expandedCount : List Item → Nat
  | [] => 0
  | i :: is => (if i.expanded then 1 else 0) + expandedCount is

/- The accordion invariant: in every sibling list of the subtree, at most
one item carries the expanded class. -/
mutual
def atMostOne : Item → Bool
  | .mk _ _ _ _ cs => decide (expandedCount cs ≤ 1) && atMostOneList cs
def atMostOneList : List Item → Bool
  | [] => true
  | i :: is => atMostOne i && atMostOneList is
end

def atMostOneForest (l : List Item) : Bool :=
  decide (expandedCount l ≤ 1) && atMostOneList l

/- No item anywhere in the subtree carries the expanded class. -/
mutual
def allCollapsed : Item → Bool
  | .mk _ _ _ e cs => !e && allCollapsedList cs
def allCollapsedList : List Item → Bool
  | [] => true
  | i :: is => allCollapsed i && allCollapsedList is
end

/- The `aria-expanded` attribute of every toggle in the subtree matches
its item's expanded class. -/
mutual
def ariaOK : Item → Bool
  | .mk t a _ e cs => (!t || decide (a = some e)) && ariaOKList cs
def ariaOKList : List Item → Bool
  | [] => true
  | i :: is => ariaOK i && ariaOKList is
end

/-! ## Induction principles for the nested item tree -/

theorem Item.inductionOn {P : Item → Prop}
    (step : ∀ t a h e cs, (∀ c ∈ cs, P c) → P (Item.mk t a h e cs)) :
    ∀ i, P i
  | .mk t a h e cs => step t a h e cs (fun c hc => Item.inductionOn step c)
termination_by i => sizeOf i
decreasing_by
  have hlt := List.sizeOf_lt_of_mem hc
  simp only [Item.mk.sizeOf_spec]
  omega

theorem Item.pairInduction {P : Item → Prop} {Q : List Item → Prop}
    (hnil : Q []) (hcons : ∀ i is, P i → Q is → Q (i :: is))
    (hstep : ∀ t a h e cs, Q cs → P (Item.mk t a h e cs)) :
    (∀ i, P i) ∧ (∀ l, Q l) := by
  have hlist : ∀ l : List Item, (∀ i ∈ l, P i) → Q l := by
    intro l
    induction l with
    | nil => intro _; exact hnil
    | cons i is ih =>
      intro h
      exact hcons i is (h i (by simp)) (ih fun j hj => h j (by simp [hj]))
  have hitem : ∀ i, P i := by
    intro i
    induction i using Item.inductionOn with
    | step t a h e cs ih => exact hstep t a h e cs (hlist cs ih)
  exact ⟨hitem, fun l => hlist l fun i _ => hitem i⟩

/-! ## Basic lemmas about the submenu operations -/

theorem setFirstAria_expanded (b : Bool) (i : Item) :
    (setFirstAria b i).expanded = i.expanded := by
  cases i with
  | mk t a h e cs => cases t <;> simp [setFirstAria, Item.expanded]

theorem collapseExpanded_expanded (i : Item) :
    (collapseExpanded i).expanded = false := by
  cases i with
  | mk t a h e cs => cases e <;> cases t <;> simp [collapseExpanded, Item.expanded]

theorem toggleClicked_expanded (x : Item) :
    (toggleClicked x).expanded = !x.expanded := by
  cases x with
  | mk t a h e cs => simp [toggleClicked, Item.expanded]

theorem setFirstAria_allCollapsed (b : Bool) :
    (∀ i, allCollapsed (setFirstAria b i) = allCollapsed i) ∧
    (∀ l, allCollapsedList (setFirstAriaList b l) = allCollapsedList l) := by
  refine Item.pairInduction rfl ?_ ?_
  · intro i is hp hq
    simp only [setFirstAriaList]
    split
    · simp [allCollapsedList, hp]
    · simp [allCollapsedList, hq]
  · intro t a h e cs hq
    cases t <;> simp [setFirstAria, allCollapsed, hq]

theorem collapseExpanded_allCollapsed :
    (∀ i, allCollapsed (collapseExpanded i) = true) ∧
    (∀ l, allCollapsedList (collapseExpandedList l) = true) := by
  refine Item.pairInduction rfl ?_ ?_
  · intro i is hp hq
    simp [collapseExpandedList, allCollapsedList, hp, hq]
  · intro t a h e cs hq
    cases e <;> cases t <;>
      simp [collapseExpanded, allCollapsed, hq, (setFirstAria_allCollapsed false).2]

theorem allCollapsed_expanded {i : Item} (h : allCollapsed i = true) :
    i.expanded = false := by
  cases i with
  | mk t a hr e cs =>
    simp only [allCollapsed, Bool.and_eq_true, Bool.not_eq_true'] at h
    simpa [Item.expanded] using h.1

theorem allCollapsedList_expandedCount {l : List Item} (h : allCollapsedList l = true) :
    expandedCount l = 0 := by
  induction l with
  | nil => rfl
  | cons i is ih =>
    simp only [allCollapsedList, Bool.and_eq_true] at h
    simp [expandedCount, allCollapsed_expanded h.1, ih h.2]

theorem allCollapsed_atMostOne :
    (∀ i, allCollapsed i = true → atMostOne i = true) ∧
    (∀ l, allCollapsedList l = true → atMostOneList l = true) := by
  refine Item.pairInduction ?_ ?_ ?_
  · intro _; rfl
  · intro i is hp hq h
    simp only [allCollapsedList, Bool.and_eq_true] at h
    simp [atMostOneList, hp h.1, hq h.2]
  · intro t a hr e cs hq h
    simp only [allCollapsed, Bool.and_eq_true] at h
    simp [atMostOne, hq h.2, allCollapsedList_expandedCount h.2]

theorem toggleClicked_atMostOne (x : Item) : atMostOne (toggleClicked x) = true := by
  cases x with
  | mk t a h e cs =>
    simp [toggleClicked, atMostOne,
      allCollapsedList_expandedCount (collapseExpanded_allCollapsed.2 cs),
      allCollapsed_atMostOne.2 _ (collapseExpanded_allCollapsed.2 cs)]

theorem clickInContainer_expandedCount (l : List Item) (i : Nat) :
    expandedCount (clickInContainer l i) ≤ 1 := by
  induction l generalizing i with
  | nil => simp [clickInContainer, expandedCount]
  | cons x xs ih =>
    cases i with
    | zero =>
      simp only [clickInContainer, expandedCount,
        allCollapsedList_expandedCount (collapseExpanded_allCollapsed.2 xs)]
      split <;> omega
    | succ n =>
      simp [clickInContainer, expandedCount, collapseExpanded_expanded, ih n]

theorem clickInContainer_atMostOneList (l : List Item) (i : Nat) :
    atMostOneList (clickInContainer l i) = true := by
  induction l generalizing i with
  | nil => rfl
  | cons x xs ih =>
    cases i with
    | zero =>
      simp [clickInContainer, atMostOneList, toggleClicked_atMostOne,
        allCollapsed_atMostOne.2 _ (collapseExpanded_allCollapsed.2 xs)]
    | succ n =>
      simp [clickInContainer, atMostOneList, ih n,
        allCollapsed_atMostOne.1 _ (collapseExpanded_allCollapsed.1 x)]

theorem updateNth_expandedCount (f : Item → Item)
    (hf : ∀ x, (f x).expanded = x.expanded) (l : List Item) (j : Nat) :
    expandedCount (updateNth f l j) = expandedCount l := by
  induction l generalizing j with
  | nil => rfl
  | cons x xs ih =>
    cases j with
    | zero => simp [updateNth, expandedCount, hf]
    | succ n => simp [updateNth, expandedCount, ih n]

theorem updateNth_atMostOneList (f : Item → Item)
    (hf : ∀ x, atMostOne x = true → atMostOne (f x) = true) (l : List Item) (j : Nat)
    (hl : atMostOneList l = true) : atMostOneList (updateNth f l j) = true := by
  induction l generalizing j with
  | nil => rfl
  | cons x xs ih =>
    simp only [atMostOneList, Bool.and_eq_true] at hl
    cases j with
    | zero => simp [updateNth, atMostOneList, hf x hl.1, hl.2]
    | succ n => simp [updateNth, atMostOneList, hl.1, ih n hl.2]

theorem atMostOne_eq_forest (i : Item) : atMostOne i = atMostOneForest i.children := by
  cases i with
  | mk t a h e cs => simp [atMostOne, atMostOneForest, Item.children]

theorem setChildren_expanded (i : Item) (cs : List Item) :
    (i.setChildren cs).expanded = i.expanded := by
  cases i with
  | mk t a h e _ => simp [Item.setChildren, Item.expanded]

theorem setChildren_children (i : Item) (cs : List Item) :
    (i.setChildren cs).children = cs := by
  cases i with
  | mk t a h e _ => simp [Item.setChildren, Item.children]

theorem clickAt_atMostOne : ∀ (p : List Nat) (l : List Item),
    atMostOneForest l = true → atMostOneForest (clickAt l p) = true := by
  intro p
  induction p with
  | nil =>
    intro l h
    simpa [clickAt] using h
  | cons j rest ih =>
    intro l h
    cases rest with
    | nil =>
      simp only [clickAt]
      split
      · split
        · simp [atMostOneForest, clickInContainer_expandedCount,
            clickInContainer_atMostOneList]
        · exact h
      · exact h
    | cons k p' =>
      simp only [clickAt]
      simp only [atMostOneForest, Bool.and_eq_true] at h ⊢
      constructor
      · rw [updateNth_expandedCount _ (fun x => setChildren_expanded x _)]
        exact h.1
      · refine updateNth_atMostOneList _ ?_ l j h.2
        intro x hx
        rw [atMostOne_eq_forest] at hx ⊢
        rw [setChildren_children]
        exact ih x.children hx

theorem getElem?_updateNth (f : Item → Item) (l : List Item) (j : Nat) :
    (updateNth f l j)[j]? = (l[j]?).map f := by
  induction l generalizing j with
  | nil => simp [updateNth]
  | cons x xs ih =>
    cases j with
    | zero => simp [updateNth]
    | succ n => simpa [updateNth] using ih n

theorem clickInContainer_expandedCount_zero : ∀ (l : List Item) (i : Nat) (it : Item),
    l[i]? = some it → it.expanded = true → expandedCount (clickInContainer l i) = 0 := by
  intro l
  induction l with
  | nil => intro i it h _; simp at h
  | cons x xs ih =>
    intro i it h he
    cases i with
    | zero =>
      simp only [List.getElem?_cons_zero, Option.some.injEq] at h
      subst h
      simp [clickInContainer, expandedCount, toggleClicked_expanded, he,
        allCollapsedList_expandedCount (collapseExpanded_allCollapsed.2 xs)]
    | succ n =>
      simp only [List.getElem?_cons_succ] at h
      simp [clickInContainer, expandedCount, collapseExpanded_expanded, ih n it h he]

theorem clickAt_zero_after_collapse : ∀ (p : List Nat) (l : List Item) (it : Item),
    itemAt l p = some it → it.hasToggle = true → it.expanded = true →
    ∃ c, containerAt (clickAt l p) p = some c ∧ expandedCount c = 0 := by
  intro p
  induction p with
  | nil => intro l it h _ _; simp [itemAt] at h
  | cons j rest ih =>
    intro l it hit ht he
    cases rest with
    | nil =>
      simp only [itemAt] at hit
      refine ⟨clickAt l [j], by simp [containerAt], ?_⟩
      simp only [clickAt, hit, ht, if_true]
      exact clickInContainer_expandedCount_zero l j it hit he
    | cons k p' =>
      simp only [itemAt] at hit
      cases hlj : l[j]? with
      | none => rw [hlj] at hit; exact absurd hit (by simp)
      | some itj =>
        rw [hlj] at hit
        obtain ⟨c, hc, hcount⟩ := ih itj.children it hit ht he
        refine ⟨c, ?_, hcount⟩
        simp only [clickAt, containerAt, getElem?_updateNth, hlj, Option.map_some']
        rw [setChildren_children]
        exact hc

theorem clickSeq_atMostOne (ps : List (List Nat)) : ∀ f : List Item,
    atMostOneForest f = true → atMostOneForest (ps.foldl clickAt f) = true := by
  induction ps with
  | nil => intro f h; exact h
  | cons p ps ih => intro f h; exact ih (clickAt f p) (clickAt_atMostOne p f h)

/-- C1: from any state in which every sibling group has at most one
expanded item (the page's initial all-collapsed markup in particular),
any sequence of submenu-toggle clicks preserves that accordion invariant;
and clicking the toggle of an already-expanded item leaves its sibling
container with zero expanded items. -/
theorem accordion_invariant (f : List Item) :
    (∀ ps : List (List Nat), atMostOneForest f = true →
      atMostOneForest (ps.foldl clickAt f) = true) ∧
    (∀ (p : List Nat) (it : Item), itemAt f p = some it → it.hasToggle = true →
      it.expanded = true →
      ∃ c, containerAt (clickAt f p) p = some c ∧ expandedCount c = 0) := by
  exact ⟨fun ps h => clickSeq_atMostOne ps f h,
    fun p it h1 h2 h3 => clickAt_zero_after_collapse p f it h1 h2 h3⟩

/-- Witness for `accordion_invariant`: a two-item sibling group where the
first item is expanded with an expanded nested child; clicking the second
item's toggle keeps the invariant, and clicking the first (expanded)
item's toggle leaves zero expanded siblings. -/
theorem accordion_invariant_witness :
    atMostOneForest
      (([[1]] : List (List Nat)).foldl clickAt
        [Item.mk true (some true) none true [Item.mk true (some true) none true []],
          Item.mk true (some false) none false []]) = true ∧
    ∃ c, containerAt
        (clickAt
          [Item.mk true (some true) none true [Item.mk true (some true) none true []],
            Item.mk true (some false) none false []] [0]) [0] = some c ∧
      expandedCount c = 0 :=
  ⟨(accordion_invariant _).1 [[1]] (by decide),
    (accordion_invariant _).2 [0]
      (Item.mk true (some true) none true [Item.mk true (some true) none true []])
      rfl rfl rfl⟩

theorem ariaOK_children {i : Item} (h : ariaOK i = true) : ariaOKList i.children = true := by
  cases i with
  | mk t a hr e cs =>
    simp only [ariaOK, Bool.and_eq_true] at h
    simpa [Item.children] using h.2

theorem setFirstAria_ariaOK_of_allCollapsed :
    (∀ i, allCollapsed i = true → ariaOK i = true → ariaOK (setFirstAria false i) = true) ∧
    (∀ l, allCollapsedList l = true → ariaOKList l = true →
      ariaOKList (setFirstAriaList false l) = true) := by
  refine Item.pairInduction ?_ ?_ ?_
  · intro _ h; exact h
  · intro i is hp hq hc ho
    simp only [allCollapsedList, Bool.and_eq_true] at hc
    simp only [ariaOKList, Bool.and_eq_true] at ho
    simp only [setFirstAriaList]
    split
    · simp [ariaOKList, hp hc.1 ho.1, ho.2]
    · simp [ariaOKList, ho.1, hq hc.2 ho.2]
  · intro t a h e cs hq hc ho
    simp only [allCollapsed, Bool.and_eq_true, Bool.not_eq_true'] at hc
    simp only [ariaOK, Bool.and_eq_true] at ho
    cases t
    · simp [setFirstAria, ariaOK, hq hc.2 ho.2, ho.1]
    · simp [setFirstAria, ariaOK, hc.1, ho.2]

theorem collapseExpanded_ariaOK :
    (∀ i, ariaOK i = true → ariaOK (collapseExpanded i) = true) ∧
    (∀ l, ariaOKList l = true → ariaOKList (collapseExpandedList l) = true) := by
  refine Item.pairInduction ?_ ?_ ?_
  · intro h; exact h
  · intro i is hp hq h
    simp only [ariaOKList, Bool.and_eq_true] at h
    simp [collapseExpandedList, ariaOKList, hp h.1, hq h.2]
  · intro t a hr e cs hq h
    simp only [ariaOK, Bool.and_eq_true] at h
    cases e
    · simp [collapseExpanded, ariaOK, h.1, hq h.2]
    · cases t
      · simp only [collapseExpanded, ariaOK]
        simp [setFirstAria_ariaOK_of_allCollapsed.2 _
          (collapseExpanded_allCollapsed.2 cs) (hq h.2)]
      · simp [collapseExpanded, ariaOK, hq h.2]

theorem toggleClicked_ariaOK (x : Item) (h : ariaOKList x.children = true) :
    ariaOK (toggleClicked x) = true := by
  cases x with
  | mk t a hr e cs =>
    simp only [Item.children] at h
    simp [toggleClicked, ariaOK, collapseExpanded_ariaOK.2 _ h]

theorem clickInContainer_ariaOK (l : List Item) (i : Nat)
    (h : ariaOKList l = true) : ariaOKList (clickInContainer l i) = true := by
  induction l generalizing i with
  | nil => rfl
  | cons x xs ih =>
    simp only [ariaOKList, Bool.and_eq_true] at h
    cases i with
    | zero =>
      simp [clickInContainer, ariaOKList, toggleClicked_ariaOK x (ariaOK_children h.1),
        collapseExpanded_ariaOK.2 _ h.2]
    | succ n =>
      simp [clickInContainer, ariaOKList, collapseExpanded_ariaOK.1 _ h.1, ih n h.2]

theorem setChildren_ariaOK {x : Item} {cs : List Item} (h : ariaOK x = true)
    (hcs : ariaOKList cs = true) : ariaOK (x.setChildren cs) = true := by
  cases x with
  | mk t a hr e _ =>
    simp only [ariaOK, Bool.and_eq_true] at h
    simp [Item.setChildren, ariaOK, h.1, hcs]

theorem updateNth_ariaOKList (f : Item → Item)
    (hf : ∀ x, ariaOK x = true → ariaOK (f x) = true) (l : List Item) (j : Nat)
    (hl : ariaOKList l = true) : ariaOKList (updateNth f l j) = true := by
  induction l generalizing j with
  | nil => rfl
  | cons x xs ih =>
    simp only [ariaOKList, Bool.and_eq_true] at hl
    cases j with
    | zero => simp [updateNth, ariaOKList, hf x hl.1, hl.2]
    | succ n => simp [updateNth, ariaOKList, hl.1, ih n hl.2]

theorem clickAt_ariaOK : ∀ (p : List Nat) (l : List Item),
    ariaOKList l = true → ariaOKList (clickAt l p) = true := by
  intro p
  induction p with
  | nil => intro l h; simpa [clickAt] using h
  | cons j rest ih =>
    intro l h
    cases rest with
    | nil =>
      simp only [clickAt]
      split
      · split
        · exact clickInContainer_ariaOK l j h
        · exact h
      · exact h
    | cons k p' =>
      simp only [clickAt]
      refine updateNth_ariaOKList _ ?_ l j h
      intro x hx
      exact setChildren_ariaOK hx (ih x.children (ariaOK_children hx))

/-- C6: if every toggle's `aria-expanded` attribute matches its item's
expanded class (as in the initial markup), then after any sequence of
submenu-toggle clicks every toggle's `aria-expanded` still equals the
presence of the expanded class on its item. -/
theorem aria_mirrors_expanded (f : List Item) (ps : List (List Nat))
    (h : ariaOKList f = true) : ariaOKList (ps.foldl clickAt f) = true := by
  induction ps generalizing f with
  | nil => exact h
  | cons p ps ih => exact ih (clickAt f p) (clickAt_ariaOK p f h)

/-- Witness for `aria_mirrors_expanded`: the mirroring survives clicking
the collapsed sibling's toggle and then the (now expanded) sibling's
toggle again, in a group with an expanded nested child present. -/
theorem aria_mirrors_expanded_witness :
    ariaOKList (([[1], [1], [0]] : List (List Nat)).foldl clickAt
      [Item.mk true (some true) none true [Item.mk true (some true) none true []],
        Item.mk true (some false) none false []]) = true :=
  aria_mirrors_expanded _ _ (by decide)

/-! ## The scope of the collapse-others pass (claim C2) -/

theorem allCollapsedList_getElem {l : List Item} (h : allCollapsedList l = true)
    {n : Nat} {x : Item} (hx : l[n]? = some x) : allCollapsed x = true := by
  induction l generalizing n with
  | nil => simp at hx
  | cons y ys ih =>
    simp only [allCollapsedList, Bool.and_eq_true] at h
    cases n with
    | zero =>
      simp only [List.getElem?_cons_zero, Option.some.injEq] at hx
      subst hx
      exact h.1
    | succ m =>
      simp only [List.getElem?_cons_succ] at hx
      exact ih h.2 hx

theorem getElem?_updateNth_ne (f : Item → Item) (l : List Item) (j m : Nat) (h : m ≠ j) :
    (updateNth f l j)[m]? = l[m]? := by
  induction l generalizing j m with
  | nil => simp [updateNth]
  | cons x xs ih =>
    cases j with
    | zero =>
      cases m with
      | zero => exact absurd rfl h
      | succ n => simp [updateNth]
    | succ n =>
      cases m with
      | zero => simp [updateNth]
      | succ m' => simpa [updateNth] using ih n m' (by omega)

/-- C2 counterexample: two sibling items where the first is expanded and
has an expanded nested child; clicking the *second* sibling's toggle also
removes the expanded class from the nested child — a menu item at a
different (deeper) nesting level — because `querySelectorAll` on the
parent matches descendants at every depth, not only same-level siblings. -/
theorem collapse_crosses_levels_counterexample :
    (itemAt
      [Item.mk true (some true) none true [Item.mk true (some true) none true []],
        Item.mk true (some false) none false []] [0, 0]).map Item.expanded = some true ∧
    (itemAt (clickAt
      [Item.mk true (some true) none true [Item.mk true (some true) none true []],
        Item.mk true (some false) none false []] [1]) [0, 0]).map Item.expanded =
      some false :=
  ⟨rfl, rfl⟩

/-- C2 amended: when a toggle is clicked, the collapse-others step clears
the expanded class on every item anywhere inside the clicked item's parent
container other than the clicked item itself — at every nesting depth,
including expanded descendants of the clicked item and of its siblings —
while menu items outside that container (other entries of every enclosing
sibling list along the path) are left unchanged. -/
theorem collapse_scope :
    (∀ (l : List Item) (i j : Nat) (x : Item), j ≠ i →
      (clickInContainer l i)[j]? = some x → allCollapsed x = true) ∧
    (∀ (l : List Item) (i : Nat) (x : Item), (clickInContainer l i)[i]? = some x →
      allCollapsedList x.children = true) ∧
    (∀ (l : List Item) (j : Nat) (rest : List Nat) (m : Nat), rest ≠ [] → m ≠ j →
      (clickAt l (j :: rest))[m]? = l[m]?) := by
  refine ⟨?_, ?_, ?_⟩
  · intro l
    induction l with
    | nil => intro i j x _ hx; simp [clickInContainer] at hx
    | cons y ys ih =>
      intro i j x hne hx
      cases i with
      | zero =>
        cases j with
        | zero => exact absurd rfl hne
        | succ n =>
          simp only [clickInContainer, List.getElem?_cons_succ] at hx
          exact allCollapsedList_getElem (collapseExpanded_allCollapsed.2 ys) hx
      | succ m =>
        cases j with
        | zero =>
          simp only [clickInContainer, List.getElem?_cons_zero, Option.some.injEq] at hx
          subst hx
          exact collapseExpanded_allCollapsed.1 y
        | succ n =>
          simp only [clickInContainer, List.getElem?_cons_succ] at hx
          exact ih m n x (by omega) hx
  · intro l
    induction l with
    | nil => intro i x hx; simp [clickInContainer] at hx
    | cons y ys ih =>
      intro i x hx
      cases i with
      | zero =>
        simp only [clickInContainer, List.getElem?_cons_zero, Option.some.injEq] at hx
        subst hx
        cases y with
        | mk t a hr e cs =>
          simpa [toggleClicked, Item.children] using collapseExpanded_allCollapsed.2 cs
      | succ m =>
        simp only [clickInContainer, List.getElem?_cons_succ] at hx
        exact ih m x hx
  · intro l j rest m hrest hne
    cases rest with
    | nil => exact absurd rfl hrest
    | cons k p' =>
      simp only [clickAt]
      exact getElem?_updateNth_ne _ l j m hne

/-- Witness for `collapse_scope` on the counterexample configuration:
the expanded first sibling (with its expanded nested child) ends fully
collapsed after a click on the second sibling's toggle, and a click one
level deeper (path `[0, 0]`) leaves the other top-level entry untouched. -/
theorem collapse_scope_witness :
    allCollapsed (Item.mk true (some false) none false
      [Item.mk true (some false) none false []]) = true ∧
    (clickAt
      [Item.mk true (some true) none true [Item.mk true (some true) none true []],
        Item.mk true (some false) none false []] [0, 0])[1]? =
      [Item.mk true (some true) none true [Item.mk true (some true) none true []],
        Item.mk true (some false) none false []][1]? :=
  ⟨collapse_scope.1
      [Item.mk true (some true) none true [Item.mk true (some true) none true []],
        Item.mk true (some false) none false []] 1 0
      (Item.mk true (some false) none false [Item.mk true (some false) none false []])
      (by decide) rfl,
    collapse_scope.2.2
      [Item.mk true (some true) none true [Item.mk true (some true) none true []],
        Item.mk true (some false) none false []] 0 [0] 1 (by decide) (by decide)⟩

/-! ## Parent-link click delegation (claim C7) -/

theorem firstOwnerList_ne_nil : ∀ (l : List Item) (q : List Nat),
    firstOwnerList l = some q → q ≠ [] := by
  intro l
  induction l with
  | nil => intro q h; simp [firstOwnerList] at h
  | cons i is ih =>
    intro q h
    simp only [firstOwnerList] at h
    cases hfo : firstOwner i with
    | some r =>
      rw [hfo] at h
      simp only [Option.some.injEq] at h
      subst h
      simp
    | none =>
      rw [hfo] at h
      cases hfl : firstOwnerList is with
      | none => rw [hfl] at h; exact Option.noConfusion h
      | some r =>
        rw [hfl] at h
        cases r with
        | nil => exact Option.noConfusion h
        | cons k r' =>
          simp only [Option.some.injEq] at h
          subst h
          simp

theorem firstOwner_none :
    (∀ i : Item, (firstOwner i = none ↔ hasToggleDesc i = false)) ∧
    (∀ l : List Item, (firstOwnerList l = none ↔ hasToggleDescList l = false)) := by
  refine Item.pairInduction ?_ ?_ ?_
  · simp [firstOwnerList, hasToggleDescList]
  · intro i is hp hq
    simp only [firstOwnerList, hasToggleDescList]
    cases hfo : firstOwner i with
    | some q =>
      have hd : hasToggleDesc i = true := by
        by_contra hd
        rw [Bool.not_eq_true] at hd
        rw [hp.mpr hd] at hfo
        exact Option.noConfusion hfo
      simp [hd]
    | none =>
      have hd : hasToggleDesc i = false := hp.mp hfo
      cases hfl : firstOwnerList is with
      | none => simp [hfl, hd, hq.mp hfl]
      | some q =>
        have hdl : hasToggleDescList is = true := by
          by_contra h'
          rw [Bool.not_eq_true] at h'
          rw [hq.mpr h'] at hfl
          exact Option.noConfusion hfl
        cases q with
        | nil => exact absurd rfl (firstOwnerList_ne_nil is [] hfl)
        | cons k q' => simp [hfl, hd, hdl]
  · intro t a h e cs hq
    cases t <;> simp [firstOwner, hasToggleDesc, hq]

/-- C7 counterexample: a menu item whose parent link has the placeholder
href, no sibling toggle of its own, but a nested child that has a toggle.
The claim says the click performs no mutation; the code instead clicks the
nested child's toggle (`item.querySelector` matches any descendant), which
expands the child. -/
theorem parentLink_nested_counterexample :
    (itemAt [Item.mk false none (some "javascript:;") false
        [Item.mk true (some false) none false []]] [0]).map Item.hasToggle = some false ∧
    (itemAt [Item.mk false none (some "javascript:;") false
        [Item.mk true (some false) none false []]] [0, 0]).map Item.expanded =
      some false ∧
    (itemAt (clickParentLink
        [Item.mk false none (some "javascript:;") false
          [Item.mk true (some false) none false []]] [0]) [0, 0]).map Item.expanded =
      some true :=
  ⟨rfl, rfl, rfl⟩

/-- C7 amended: clicking a placeholder-href parent link dispatches a click
to the first toggle found among the item's descendants. When the item has
its own (sibling) toggle that is the one clicked, so the end state is
exactly that of clicking the sibling toggle directly; the click is a
no-mutation no-op only when the item's subtree contains no toggle at all. -/
theorem parentLink_click (f : List Item) (p : List Nat) (it : Item)
    (hit : itemAt f p = some it) (hhref : it.href = some "javascript:;") :
    (it.hasToggle = true → clickParentLink f p = clickAt f p) ∧
    (hasToggleDesc it = false → clickParentLink f p = f) := by
  constructor
  · intro ht
    have hfo : firstOwner it = some [] := by
      cases it with
      | mk t a h e cs =>
        simp only [Item.hasToggle] at ht
        simp [firstOwner, ht]
    simp [clickParentLink, hit, hhref, hfo]
  · intro hd
    have hfo : firstOwner it = none := (firstOwner_none.1 it).mpr hd
    simp [clickParentLink, hit, hhref, hfo]

/-- Witness for `parentLink_click`: an item with placeholder href and its
own toggle — the parent-link click equals the direct toggle click — and an
item with placeholder href and no toggle anywhere — the click is a no-op. -/
theorem parentLink_click_witness :
    clickParentLink [Item.mk true (some false) (some "javascript:;") false []] [0] =
      clickAt [Item.mk true (some false) (some "javascript:;") false []] [0] ∧
    clickParentLink [Item.mk false none (some "javascript:;") false []] [0] =
      [Item.mk false none (some "javascript:;") false []] :=
  ⟨(parentLink_click [Item.mk true (some false) (some "javascript:;") false []] [0]
      (Item.mk true (some false) (some "javascript:;") false []) rfl rfl).1 rfl,
    (parentLink_click [Item.mk false none (some "javascript:;") false []] [0]
      (Item.mk false none (some "javascript:;") false []) rfl rfl).2 rfl⟩

/-! ## Idempotence of repeated identical triggers (claim C8) -/

/-- C8 counterexample: the submenu-toggle click handler is not idempotent.
Clicking a collapsed item's toggle once expands it; delivering the same
click again collapses it, so two identical clicks do not leave the DOM in
the same state as one. -/
theorem toggle_not_idempotent_counterexample :
    (itemAt (clickAt [Item.mk true (some false) none false []] [0]) [0]).map
      Item.expanded = some true ∧
    (itemAt (clickAt (clickAt [Item.mk true (some false) none false []] [0]) [0])
        [0]).map Item.expanded = some false :=
  ⟨rfl, rfl⟩

/-- C8 amended: the open-trigger, close-trigger, overlay and Escape
handlers and `handleStickyHeader` are idempotent with respect to repeated
identical triggers; the submenu-toggle click handler is excluded — it
alternates the clicked item's expanded state, so a repeated identical
click does not leave the DOM unchanged. -/
theorem handlers_idempotent :
    (∀ (hasOpen : Bool) (s : MNavState),
      mnavStep hasOpen (mnavStep hasOpen s .openClick) .openClick =
        mnavStep hasOpen s .openClick) ∧
    (∀ (hasOpen : Bool) (s : MNavState),
      mnavStep hasOpen (mnavStep hasOpen s .closeClick) .closeClick =
        mnavStep hasOpen s .closeClick) ∧
    (∀ (hasOpen : Bool) (s : MNavState),
      mnavStep hasOpen (mnavStep hasOpen s .overlayClick) .overlayClick =
        mnavStep hasOpen s .overlayClick) ∧
    (∀ (hasOpen : Bool) (s : MNavState),
      mnavStep hasOpen (mnavStep hasOpen s .escapeKey) .escapeKey =
        mnavStep hasOpen s .escapeKey) ∧
    (∀ (h off : ℚ) (s : StickyState),
      handleStickyHeader h off (handleStickyHeader h off s) =
        handleStickyHeader h off s) := by
  refine ⟨?_, ?_, ?_, ?_, ?_⟩
  · intro ho s; cases ho <;> simp [mnavStep, openMobileNav]
  · intro ho s; cases ho <;> simp [mnavStep, closeMobileNav]
  · intro ho s; cases ho <;> simp [mnavStep, closeMobileNav]
  · intro ho s
    by_cases ha : s.mnavActive = true <;> cases ho <;>
      simp [mnavStep, closeMobileNav, ha]
  · intro h off s
    by_cases hgt : off > h <;> simp [handleStickyHeader, hgt]

end Header
